import Mathlib

/-!
Formal model of `src/tounn/TOuNNOptimizer.py` (class `TopologyOptimizer`).

The numeric values flowing through the optimizer (densities, sensitivities,
the continuation exponent `penal`, the volume-penalty weight `alpha`, the
various literal constants) are modelled as exact rationals — every floating
point literal of the source is a rational number — while the quantities the
program derives from them through real powers (`rho ** penal`) live in `ℝ`
via `Real.rpow`.

The neural network (`TopNet`), the Adam optimizer step, the gradient
clipping and the FE solver are external collaborators of the loop in
`optimizeDesign`; the loop only consumes the projected density vector
`rho_np` and the per-element sensitivity `Jelem` that they yield at each
epoch.  They are therefore modelled as an `Oracle`: a function from the
epoch index to the density list and the sensitivity list observed at that
epoch.  Everything the loop itself computes from those values — `obj0`,
the objective, the loss, `alpha`, `FE.penal`, the convergence history, the
break condition — is translated directly from the source.
-/

namespace TOuNN

/-- Symmetry settings for one axis: the dictionaries `bc['symXAxis']` /
`bc['symYAxis']` with fields `isOn` and `midPt`. -/
structure SymAxis where
  isOn : Bool
  midPt : ℚ

/-- Density-projection settings: the dictionary `densityProjection` with
fields `isOn` and `sharpness`. -/
structure ProjSettings where
  isOn : Bool
  sharpness : ℝ

/-- The two devices `setDevice` can return (`torch.device("cuda:0")` /
`torch.device("cpu")`). -/
inductive Device where
  | cpu : Device
  | gpu : Device
deriving DecidableEq

/-- Model of `TopologyOptimizer.setDevice` (lines 74–81): the GPU is chosen exactly
when CUDA is available and `overrideGPU == False`; otherwise the CPU. -/
def setDevice (cudaIsAvailable overrideGPU : Bool) : Device :=
  if cudaIsAvailable && (overrideGPU == false) then Device.gpu else Device.cpu

/-- The default value of the `overrideGPU` keyword argument of
`TopologyOptimizer.__init__` (line 37). -/
def overrideGPUDefault : Bool := true

/-- Model of `TopologyOptimizer.applySymmetry` (lines 84–94), on a list of
coordinate pairs (the rows of the `n × 2` tensor `x`).  Note that the
`symYAxis` settings drive the FIRST coordinate (`x[:, 0]`) and the
`symXAxis` settings drive the SECOND coordinate (`x[:, 1]`). -/
def applySymmetry (symXAxis symYAxis : SymAxis) (x : List (ℚ × ℚ)) :
    List (ℚ × ℚ) :=
  x.map fun p =>
    (if symYAxis.isOn then symYAxis.midPt + |p.1 - symYAxis.midPt| else p.1,
     if symXAxis.isOn then symXAxis.midPt + |p.2 - symXAxis.midPt| else p.2)

/-- Model of `TopologyOptimizer.projectDensity` (lines 97–102), elementwise on the
entries of the tensor `x`.  When `isOn` the source computes
`nmr = tanh(0.5*b) + tanh(b*(x-0.5))` and returns `0.5 * nmr / tanh(0.5*b)`;
otherwise it returns `x` unchanged. -/
noncomputable def projectDensity (dp : ProjSettings) (x : List ℝ) : List ℝ :=
  if dp.isOn then
    x.map fun v =>
      0.5 * (Real.tanh (0.5 * dp.sharpness) +
        Real.tanh (dp.sharpness * (v - 0.5))) / Real.tanh (0.5 * dp.sharpness)
  else x

/-- The scalar inputs of `optimizeDesign` that are fixed over a run:
`FE.Emax`, the initial value of `FE.penal`, and `desiredVolumeFraction`. -/
structure Config where
  Emax : ℚ
  penal0 : ℚ
  desiredVolumeFraction : ℚ

/-- The values produced by the external collaborators at each epoch of the
loop: `rho epoch` is the projected density vector `rho_np` observed at that
epoch (the network output after `applySymmetry` and `projectDensity`), and
`Jelem epoch` is the per-element sensitivity returned by `FE.solve` on it
(line 126). -/
structure Oracle where
  rho : ℕ → List ℚ
  Jelem : ℕ → List ℚ

/-- The loop-local variables assigned by every execution of the loop body,
read again by the code after the loop (lines 175–188): `rho_np`, `epoch`,
`loss`, `relGreyElements`, `currentVolumeFraction`. -/
structure BodyVars where
  rho_np : List ℚ
  epoch : ℕ
  loss : ℝ
  relGreyElements : ℚ
  currentVolumeFraction : ℚ

/-- The mutable state threaded through the iterations of `optimizeDesign`:
`FE.penal`, `alpha`, `obj0`, `topOpt.objective`, the three lists of
`convergenceHistory`, plus the loop-local variables (`lastVars`, bound once
the body has run at least once) and `titleStr` (bound once an epoch with
`epoch % 20 == 0` has run). -/
structure LoopState where
  penal : ℚ
  alpha : ℚ
  obj0 : ℝ
  objective : ℝ
  compliance : List ℝ
  vol : List ℚ
  grayElems : List ℚ
  lastVars : Option BodyVars
  titleStr : Option (ℕ × ℝ × ℚ)

/-- Number of gray elements (line 155):
`sum(1 for rho in rho_np if ((rho > 0.2) & (rho < 0.8)))`. -/
def greyElements (rho : List ℚ) : ℕ :=
  rho.countP fun r => decide (1/5 < r ∧ r < 4/5)

/-- Value of `relGreyElements` at the epoch (line 156):
`desiredVolumeFraction * greyElements / len(rho_np)`. -/
def relGreyAt (cfg : Config) (oracle : Oracle) (epoch : ℕ) : ℚ :=
  cfg.desiredVolumeFraction * (greyElements (oracle.rho epoch) : ℚ) /
    ((oracle.rho epoch).length : ℚ)

/-- Value of `currentVolumeFraction` at the epoch (line 146): `np.average(rho_np)`. -/
def volAt (oracle : Oracle) (epoch : ℕ) : ℚ :=
  (oracle.rho epoch).sum / ((oracle.rho epoch).length : ℚ)

/-- The unnormalized compliance sum `(Emax * rho**p * Jelem).sum()` used at
line 130–132 to set `obj0`. -/
noncomputable def sumEJ (Emax p : ℚ) (rho J : List ℚ) : ℝ :=
  (List.zipWith
    (fun (r j : ℚ) => (Emax : ℝ) * (r : ℝ) ^ (p : ℝ) * (j : ℝ)) rho J).sum

/-- The objective of one iteration (lines 135–141): the element term
`Emax * rho_np ** (2*penal) * Jelem` divided elementwise by
`nn_rho ** penal`, summed, and divided by `obj0`.  `rho_np` and `nn_rho`
hold the same numeric values (`rho_np` is the detached copy). -/
noncomputable def objectiveFormula (Emax p : ℚ) (obj0 : ℝ) (rho J : List ℚ) :
    ℝ :=
  (List.zipWith
    (fun (r j : ℚ) =>
      (Emax : ℝ) * (r : ℝ) ^ (2 * (p : ℝ)) * (j : ℝ) / (r : ℝ) ^ (p : ℝ))
    rho J).sum / obj0

/-- One execution of the loop body of `optimizeDesign` (lines 118–172) at
the given `epoch`, starting from state `s`.  In source order: fetch the
density and sensitivity, set `obj0` when `epoch == 0` (lines 129–132),
compute the objective (135–141), the volume constraint and the loss
(144–148), bump `alpha` (150), append to the convergence history (155–159),
bump `FE.penal` (160), and refresh `titleStr` when `epoch % 20 == 0`
(163–166). -/
noncomputable def stepBody (cfg : Config) (oracle : Oracle) (epoch : ℕ)
    (s : LoopState) : LoopState :=
  let rho := oracle.rho epoch
  let J := oracle.Jelem epoch
  let obj0' := if epoch = 0 then sumEJ cfg.Emax s.penal rho J else s.obj0
  let objective := objectiveFormula cfg.Emax s.penal obj0' rho J
  let volConstraint : ℚ := volAt oracle epoch / cfg.desiredVolumeFraction - 1
  let loss : ℝ := objective + (s.alpha : ℝ) * ((volConstraint : ℝ)) ^ 2
  let relGrey := relGreyAt cfg oracle epoch
  { penal := min 8 (s.penal + 1/50)
    alpha := min (100 * cfg.desiredVolumeFraction) (s.alpha + 1/20)
    obj0 := obj0'
    objective := objective
    compliance := s.compliance ++ [objective]
    vol := s.vol ++ [volAt oracle epoch]
    grayElems := s.grayElems ++ [relGrey]
    lastVars := some ⟨rho, epoch, loss, relGrey, volAt oracle epoch⟩
    titleStr := if epoch % 20 = 0 then some (epoch, objective * obj0', volAt oracle epoch)
                else s.titleStr }

/-- The state on entry to the loop (lines 106–116 together with
`self.objective = 0.0` from `__init__`): `alpha = alphaIncrement = 0.05`,
`penal` is the solver's initial exponent, the history lists are empty and
no loop-local variable is bound yet.  `obj0` does not exist as an attribute
before iteration 0; it is initialised to `0` here and is never read before
the loop assigns it. -/
noncomputable def initState (cfg : Config) : LoopState :=
  { penal := cfg.penal0
    alpha := 1/20
    obj0 := 0
    objective := 0
    compliance := []
    vol := []
    grayElems := []
    lastVars := none
    titleStr := none }

/-- The `for epoch in range(maxEpochs)` loop with its end-of-body break
(line 173): run the body, then stop if `(epoch > minEpochs) &
(relGreyElements < 0.025)`, else continue with the next epoch.  Returns the
final state together with the number of iterations executed. -/
noncomputable def loopAux (cfg : Config) (oracle : Oracle) (minEpochs : ℕ) :
    ℕ → ℕ → LoopState → LoopState × ℕ
  | 0, _, s => (s, 0)
  | fuel + 1, epoch, s =>
    let s' := stepBody cfg oracle epoch s
    if minEpochs < epoch ∧ relGreyAt cfg oracle epoch < 1/40 then (s', 1)
    else
      let r := loopAux cfg oracle minEpochs fuel (epoch + 1) s'
      (r.1, r.2 + 1)

/-- The whole loop of `optimizeDesign`, from epoch `0` with the initial
state. -/
noncomputable def runLoop (cfg : Config) (oracle : Oracle)
    (maxEpochs minEpochs : ℕ) : LoopState × ℕ :=
  loopAux cfg oracle minEpochs maxEpochs 0 (initState cfg)

/-- The state after the first `k` iterations of the body, ignoring the
break (the break only cuts the trajectory short; while iterations execute
they follow exactly this sequence). -/
noncomputable def stateAt (cfg : Config) (oracle : Oracle) : ℕ → LoopState
  | 0 => initState cfg
  | k + 1 => stepBody cfg oracle k (stateAt cfg oracle k)

/-- The Boolean break condition of line 173 as a predicate on the epoch
index: `(epoch > minEpochs) & (relGreyElements < 0.025)`. -/
def stopB (cfg : Config) (oracle : Oracle) (minEpochs : ℕ) (epoch : ℕ) :
    Bool :=
  decide (minEpochs < epoch) && decide (relGreyAt cfg oracle epoch < 1/40)

/-- Model of `optimizeDesign` as a whole: run the loop, then execute the post-loop
code (lines 175–210), which reads the loop-local variables `rho_np`,
`titleStr`, `epoch`, `loss`, `relGreyElements`, `currentVolumeFraction`.
If the loop body never ran, those names were never assigned and the read
raises (`NameError`); this is modelled by returning `none`.  On success the
convergence history (`compliance`, `vol`, `grayElems`) is returned. -/
noncomputable def optimizeDesign (cfg : Config) (oracle : Oracle)
    (maxEpochs minEpochs : ℕ) : Option (List ℝ × List ℚ × List ℚ) :=
  match (runLoop cfg oracle maxEpochs minEpochs).1.lastVars,
      (runLoop cfg oracle maxEpochs minEpochs).1.titleStr with
  | some _, some _ =>
    some ((runLoop cfg oracle maxEpochs minEpochs).1.compliance,
      (runLoop cfg oracle maxEpochs minEpochs).1.vol,
      (runLoop cfg oracle maxEpochs minEpochs).1.grayElems)
  | _, _ => none

/-- A concrete configuration used by witnesses: `Emax = 1`, initial
`penal = 2`, `desiredVolumeFraction = 1/2`. -/
def cfgW : Config := ⟨1, 2, 1/2⟩

/-- A concrete oracle used by witnesses: every epoch yields the
single-element density `[1]` and sensitivity `[2]`. -/
def oracleW : Oracle := ⟨fun _ => [1], fun _ => [2]⟩

/-- A configuration whose initial `FE.penal` (= 9) exceeds the cap 8.0. -/
def cfgP9 : Config := ⟨1, 9, 1/2⟩

/-- A configuration with a tiny volume fraction, `1/10000`, so that
`100 * desiredVolumeFraction = 1/100` is below the initial alpha `1/20`. -/
def cfgVtiny : Config := ⟨1, 2, 1/10000⟩

/-! ## Theorems -/

/-- Claim C7: with projection disabled `projectDensity` is the identity on
every input, and with both symmetry axes disabled `applySymmetry` is the
identity on every coordinate list. -/
theorem transforms_identity_when_disabled :
    (∀ (b : ℝ) (x : List ℝ), projectDensity ⟨false, b⟩ x = x) ∧
    (∀ (mx my : ℚ) (coords : List (ℚ × ℚ)),
      applySymmetry ⟨false, mx⟩ ⟨false, my⟩ coords = coords) := by
  constructor
  · intro b x
    simp [projectDensity]
  · intro mx my coords
    simp [applySymmetry]

/-- Claim C9: `setDevice` returns the CPU whenever `overrideGPU` is true —
the constructor's default — even when CUDA is available, and returns the
GPU exactly when CUDA is available and `overrideGPU` is false. -/
theorem setDevice_cpu_unless_allowed :
    overrideGPUDefault = true ∧
    (∀ c : Bool, setDevice c true = Device.cpu) ∧
    (∀ c o : Bool, setDevice c o = Device.gpu ↔ c = true ∧ o = false) := by
  refine ⟨rfl, ?_, ?_⟩
  · intro c
    cases c <;> rfl
  · intro c o
    cases c <;> cases o <;> simp [setDevice]

/-- Claim C5 counterexample: with X-axis symmetry enabled (midpoint 1) and
Y-axis symmetry disabled, the first output coordinate of
`applySymmetry` on `(0, 0)` is `0`, not `1 + |0 - 1| = 2`, and
`applySymmetry (2*1 - 0, 0) ≠ applySymmetry (0, 0)`: the `symXAxis`
settings reflect the second coordinate, not the first. -/
theorem symmetry_first_coord_counterexample :
    (applySymmetry ⟨true, 1⟩ ⟨false, 0⟩ [((0 : ℚ), 0)]).map Prod.fst
      = [(0 : ℚ)] ∧
    (0 : ℚ) ≠ 1 + |(0 : ℚ) - 1| ∧
    applySymmetry ⟨true, 1⟩ ⟨false, 0⟩ [((2 * 1 - 0 : ℚ), 0)] ≠
      applySymmetry ⟨true, 1⟩ ⟨false, 0⟩ [((0 : ℚ), 0)] := by
  refine ⟨?_, by norm_num, ?_⟩
  · simp [applySymmetry]
  · simp [applySymmetry]

/-- Claim C5 amended: the stated reflection law holds for the axis whose
symmetry settings drive the first coordinate, namely `symYAxis`: with
`symYAxis` enabled at midpoint `m` (and any `symXAxis` settings), the first
output coordinate at `(x, y)` is `m + |x - m|`, and reflecting the input's
first coordinate about `m` leaves the output unchanged. -/
theorem symmetry_first_coord_mirror (sx : SymAxis) (m : ℚ)
    (coords : List (ℚ × ℚ)) :
    ((applySymmetry sx ⟨true, m⟩ coords).map Prod.fst
      = coords.map fun p => m + |p.1 - m|) ∧
    applySymmetry sx ⟨true, m⟩ (coords.map fun p => (2 * m - p.1, p.2)) =
      applySymmetry sx ⟨true, m⟩ coords := by
  constructor
  · simp [applySymmetry, List.map_map]
  · simp only [applySymmetry, List.map_map]
    refine List.map_congr_left fun p _ => ?_
    have habs : |2 * m - p.1 - m| = |p.1 - m| := by
      rw [show 2 * m - p.1 - m = -(p.1 - m) by ring, abs_neg]
    simp [habs]

/-- The sensitivity trick of lines 133–141: for a nonnegative density `r`,
multiplying by `r ^ (2p)` and dividing by `r ^ p` is the same as
multiplying by `r ^ p` (all powers are real powers). -/
theorem rpow_double_div (E j r p : ℝ) (hr : 0 ≤ r) :
    E * r ^ (2 * p) * j / r ^ p = E * r ^ p * j := by
  rcases hr.eq_or_lt with h | h
  · subst h
    by_cases hp : p = 0
    · subst hp
      norm_num
    · rw [Real.zero_rpow hp, Real.zero_rpow (mul_ne_zero two_ne_zero hp)]
      simp
  · have hpow : r ^ p ≠ 0 := (Real.rpow_pos_of_pos h p).ne'
    rw [two_mul, Real.rpow_add h]
    field_simp
    ring

/-- Sums of `zipWith` agree when the two element functions agree on the
members of the first list. -/
theorem zipWith_sum_congr {f g : ℚ → ℚ → ℝ} :
    ∀ rho : List ℚ, (∀ r ∈ rho, ∀ j, f r j = g r j) →
      ∀ J : List ℚ,
        (List.zipWith f rho J).sum = (List.zipWith g rho J).sum := by
  intro rho
  induction rho with
  | nil =>
    intro _ J
    rfl
  | cons r rs ih =>
    intro h J
    cases J with
    | nil => rfl
    | cons j js =>
      have h1 := h r (List.mem_cons_self r rs) j
      have h2 := ih (fun a ha j => h a (List.mem_cons_of_mem r ha) j) js
      simp only [List.zipWith_cons_cons, List.sum_cons, h1, h2]

/-- The objective of lines 135–141 simplifies, for nonnegative densities,
to the plain compliance sum `sum(Emax * rho^penal * Jelem)` over `obj0`. -/
theorem objectiveFormula_eq_sumEJ (E p : ℚ) (o : ℝ) (rho J : List ℚ)
    (h : ∀ r ∈ rho, (0 : ℚ) ≤ r) :
    objectiveFormula E p o rho J = sumEJ E p rho J / o := by
  unfold objectiveFormula sumEJ
  rw [zipWith_sum_congr rho (fun r hr j => rpow_double_div _ _ _ _
    (by exact_mod_cast h r hr)) J]

/-- Claim C1: at every iteration `k` of `optimizeDesign`, the objective —
computed at lines 135–141 as
`sum(Emax * rho_detached^(2*penal) * Jelem / rho^penal) / obj0` with
`penal` the solver's current exponent — numerically equals
`sum(Emax * rho^penal * Jelem) / obj0` at the current (nonnegative)
density values. -/
theorem objective_value_simplifies (cfg : Config) (oracle : Oracle) (k : ℕ)
    (h : ∀ r ∈ oracle.rho k, (0 : ℚ) ≤ r) :
    (stateAt cfg oracle (k + 1)).objective =
      sumEJ cfg.Emax ((stateAt cfg oracle k).penal)
          (oracle.rho k) (oracle.Jelem k) /
        (stateAt cfg oracle (k + 1)).obj0 := by
  show (stepBody cfg oracle k (stateAt cfg oracle k)).objective =
    sumEJ cfg.Emax ((stateAt cfg oracle k).penal)
        (oracle.rho k) (oracle.Jelem k) /
      (stepBody cfg oracle k (stateAt cfg oracle k)).obj0
  simp only [stepBody]
  exact objectiveFormula_eq_sumEJ _ _ _ _ _ h

/-- Witness for C1 at the concrete configuration `cfgW`, oracle `oracleW`
and iteration `0`. -/
theorem objective_value_simplifies_witness :
    (∀ r ∈ oracleW.rho 0, (0 : ℚ) ≤ r) ∧
    (stateAt cfgW oracleW 1).objective =
      sumEJ cfgW.Emax ((stateAt cfgW oracleW 0).penal)
          (oracleW.rho 0) (oracleW.Jelem 0) /
        (stateAt cfgW oracleW 1).obj0 := by
  have h : ∀ r ∈ oracleW.rho 0, (0 : ℚ) ≤ r := by
    intro r hr
    simp only [oracleW, List.mem_singleton] at hr
    subst hr
    norm_num
  exact ⟨h, objective_value_simplifies cfgW oracleW 0 h⟩

/-- After the first iteration, `obj0` holds the iteration-0 compliance sum
evaluated at the initial `penal`, and every later iteration leaves it
unchanged (line 129: the assignment is guarded by `epoch == 0`). -/
theorem obj0_after_first (cfg : Config) (oracle : Oracle) :
    ∀ j : ℕ, (stateAt cfg oracle (j + 1)).obj0 =
      sumEJ cfg.Emax cfg.penal0 (oracle.rho 0) (oracle.Jelem 0) := by
  intro j
  induction j with
  | zero =>
    show (stepBody cfg oracle 0 (initState cfg)).obj0 = _
    simp [stepBody, initState]
  | succ n ih =>
    show (stepBody cfg oracle (n + 1) (stateAt cfg oracle (n + 1))).obj0 = _
    simp only [stepBody, Nat.succ_ne_zero, if_false]
    exact ih

/-- Claim C2: `obj0` is assigned exactly once, during iteration 0, with the
value `sum(Emax * density^penal * sensitivity)` at the iteration-0 density
and the solver's initial `penal`; no later iteration changes it even though
`penal` changes every iteration. -/
theorem obj0_assigned_once (cfg : Config) (oracle : Oracle) (k : ℕ)
    (hk : 1 ≤ k) :
    (stateAt cfg oracle k).obj0 =
      sumEJ cfg.Emax cfg.penal0 (oracle.rho 0) (oracle.Jelem 0) := by
  obtain ⟨j, rfl⟩ : ∃ j, k = j + 1 := ⟨k - 1, by omega⟩
  exact obj0_after_first cfg oracle j

/-- Witness for C2 at the concrete configuration `cfgW`, oracle `oracleW`
and `k = 1`. -/
theorem obj0_assigned_once_witness :
    1 ≤ 1 ∧
    (stateAt cfgW oracleW 1).obj0 =
      sumEJ cfgW.Emax cfgW.penal0 (oracleW.rho 0) (oracleW.Jelem 0) :=
  ⟨le_refl 1, obj0_assigned_once cfgW oracleW 1 (le_refl 1)⟩

/-- Unfolding of one loop step: run the body, then either break or
recurse. -/
theorem loopAux_succ (cfg : Config) (oracle : Oracle)
    (minE fuel epoch : ℕ) (s : LoopState) :
    loopAux cfg oracle minE (fuel + 1) epoch s =
      if minE < epoch ∧ relGreyAt cfg oracle epoch < 1/40 then
        (stepBody cfg oracle epoch s, 1)
      else
        ((loopAux cfg oracle minE fuel (epoch + 1)
            (stepBody cfg oracle epoch s)).1,
         (loopAux cfg oracle minE fuel (epoch + 1)
            (stepBody cfg oracle epoch s)).2 + 1) := rfl

/-- The number of iterations the loop executes, starting at `epoch` with
`fuel` epochs left, is `fuel` unless the break condition fires at some
epoch of the remaining range, in which case it is the offset of the first
such epoch plus one. -/
theorem loopAux_count (cfg : Config) (oracle : Oracle) (minE : ℕ) :
    ∀ (fuel epoch : ℕ) (s : LoopState),
      (loopAux cfg oracle minE fuel epoch s).2 =
        min fuel
          ((List.range' epoch fuel).findIdx (stopB cfg oracle minE) + 1) := by
  intro fuel
  induction fuel with
  | zero =>
    intro e s
    simp [loopAux]
  | succ n ih =>
    intro e s
    rw [loopAux_succ, List.range'_succ, List.findIdx_cons]
    by_cases h : minE < e ∧ relGreyAt cfg oracle e < 1/40
    · have hb : stopB cfg oracle minE e = true := by
        unfold stopB
        rw [decide_eq_true h.1, decide_eq_true h.2]
        rfl
      rw [if_pos h, hb]
      simp only [cond_true]
      omega
    · have hb : stopB cfg oracle minE e = false := by
        unfold stopB
        by_cases hA : minE < e
        · have hB : ¬ relGreyAt cfg oracle e < 1/40 := fun hB => h ⟨hA, hB⟩
          rw [decide_eq_false_iff_not.mpr hB, Bool.and_false]
        · rw [decide_eq_false_iff_not.mpr hA, Bool.false_and]
      rw [if_neg h, hb]
      simp only [cond_false]
      rw [ih]
      omega

/-- While the loop executes, its state follows the unconditional iteration
sequence `stateAt`: after executing its iterations it sits at
`stateAt (epoch + count)`. -/
theorem loopAux_state (cfg : Config) (oracle : Oracle) (minE : ℕ) :
    ∀ fuel epoch : ℕ,
      (loopAux cfg oracle minE fuel epoch (stateAt cfg oracle epoch)).1 =
        stateAt cfg oracle
          (epoch +
            (loopAux cfg oracle minE fuel epoch
              (stateAt cfg oracle epoch)).2) := by
  intro fuel
  induction fuel with
  | zero =>
    intro e
    simp [loopAux]
  | succ n ih =>
    intro e
    have hstep : stepBody cfg oracle e (stateAt cfg oracle e) =
        stateAt cfg oracle (e + 1) := rfl
    rw [loopAux_succ, hstep]
    by_cases h : minE < e ∧ relGreyAt cfg oracle e < 1/40
    · rw [if_pos h]
    · rw [if_neg h]
      show (loopAux cfg oracle minE n (e + 1)
          (stateAt cfg oracle (e + 1))).1 = _
      rw [ih (e + 1)]
      congr 1
      omega

/-- One body execution appends exactly one record to each history list:
the objective it computed, the volume fraction, and the gray fraction. -/
theorem stepBody_hist (cfg : Config) (oracle : Oracle) (e : ℕ)
    (s : LoopState) :
    (stepBody cfg oracle e s).compliance =
      s.compliance ++ [(stepBody cfg oracle e s).objective] ∧
    (stepBody cfg oracle e s).vol = s.vol ++ [volAt oracle e] ∧
    (stepBody cfg oracle e s).grayElems =
      s.grayElems ++ [relGreyAt cfg oracle e] :=
  ⟨rfl, rfl, rfl⟩

/-- After `k` iterations the history lists record, in order, the objective,
volume fraction and gray fraction of each executed iteration. -/
theorem stateAt_trace (cfg : Config) (oracle : Oracle) :
    ∀ k : ℕ,
      (stateAt cfg oracle k).compliance =
        (List.range k).map (fun i => (stateAt cfg oracle (i + 1)).objective) ∧
      (stateAt cfg oracle k).vol =
        (List.range k).map (fun i => volAt oracle i) ∧
      (stateAt cfg oracle k).grayElems =
        (List.range k).map (fun i => relGreyAt cfg oracle i) := by
  intro k
  induction k with
  | zero => exact ⟨rfl, rfl, rfl⟩
  | succ n ih =>
    refine ⟨?_, ?_, ?_⟩
    · rw [List.range_succ, List.map_append, ← ih.1, List.map_cons,
        List.map_nil]
      exact (stepBody_hist cfg oracle n (stateAt cfg oracle n)).1
    · rw [List.range_succ, List.map_append, ← ih.2.1, List.map_cons,
        List.map_nil]
      exact (stepBody_hist cfg oracle n (stateAt cfg oracle n)).2.1
    · rw [List.range_succ, List.map_append, ← ih.2.2, List.map_cons,
        List.map_nil]
      exact (stepBody_hist cfg oracle n (stateAt cfg oracle n)).2.2

/-- The final state of the loop is the unconditional iteration sequence
evaluated at the number of executed iterations. -/
theorem runLoop_state (cfg : Config) (oracle : Oracle) (maxE minE : ℕ) :
    (runLoop cfg oracle maxE minE).1 =
      stateAt cfg oracle (runLoop cfg oracle maxE minE).2 := by
  show (loopAux cfg oracle minE maxE 0 (initState cfg)).1 =
    stateAt cfg oracle (loopAux cfg oracle minE maxE 0 (initState cfg)).2
  have h0 : initState cfg = stateAt cfg oracle 0 := rfl
  rw [h0]
  simpa using loopAux_state cfg oracle minE maxE 0

/-- Claim C3: the loop executes at most `maxEpochs` iterations, and the
executed count is exactly `min maxEpochs (i + 1)` where `i` is the index of
the first epoch satisfying the break condition `stopB` — i.e. the loop
exits early after iteration `epoch` precisely when `epoch > minEpochs` and
the gray fraction `desiredVolumeFraction * #{0.2 < rho < 0.8} / numElems`
of that iteration is strictly below 0.025 (`List.findIdx` returns the list
length when no entry satisfies the predicate, in which case the count is
`maxEpochs`). -/
theorem loop_iteration_count (cfg : Config) (oracle : Oracle)
    (maxE minE : ℕ) :
    (runLoop cfg oracle maxE minE).2 ≤ maxE ∧
    (runLoop cfg oracle maxE minE).2 =
      min maxE
        ((List.range maxE).findIdx (stopB cfg oracle minE) + 1) := by
  have h := loopAux_count cfg oracle minE maxE 0 (initState cfg)
  constructor
  · show (loopAux cfg oracle minE maxE 0 (initState cfg)).2 ≤ maxE
    rw [h]
    exact Nat.min_le_left _ _
  · show (loopAux cfg oracle minE maxE 0 (initState cfg)).2 = _
    rw [h, List.range_eq_range']

/-- Claim C8: the three convergence-history sequences have equal lengths,
and their common length is the number of loop iterations actually
executed. -/
theorem history_lengths (cfg : Config) (oracle : Oracle) (maxE minE : ℕ) :
    (runLoop cfg oracle maxE minE).1.compliance.length =
      (runLoop cfg oracle maxE minE).2 ∧
    (runLoop cfg oracle maxE minE).1.vol.length =
      (runLoop cfg oracle maxE minE).2 ∧
    (runLoop cfg oracle maxE minE).1.grayElems.length =
      (runLoop cfg oracle maxE minE).2 := by
  have ht := stateAt_trace cfg oracle (runLoop cfg oracle maxE minE).2
  rw [runLoop_state cfg oracle maxE minE, ht.1, ht.2.1, ht.2.2]
  simp

/-- Claim C6 amended: the record appended to the convergence history at
each iteration stores the NORMALIZED objective `objective.item()` (the
physical compliance already divided by `obj0`), together with the current
volume fraction and the gray fraction of that iteration. -/
theorem history_stores_normalized_objective (cfg : Config) (oracle : Oracle)
    (maxE minE : ℕ) :
    (runLoop cfg oracle maxE minE).1.compliance =
      (List.range (runLoop cfg oracle maxE minE).2).map
        (fun i => (stateAt cfg oracle (i + 1)).objective) ∧
    (runLoop cfg oracle maxE minE).1.vol =
      (List.range (runLoop cfg oracle maxE minE).2).map
        (fun i => volAt oracle i) ∧
    (runLoop cfg oracle maxE minE).1.grayElems =
      (List.range (runLoop cfg oracle maxE minE).2).map
        (fun i => relGreyAt cfg oracle i) := by
  rw [runLoop_state cfg oracle maxE minE]
  exact stateAt_trace cfg oracle (runLoop cfg oracle maxE minE).2

/-- Claim C6 counterexample: in the concrete run `cfgW`/`oracleW` with one
iteration, the value appended to `history['compliance']` is the normalized
objective `1`, while the compliance in physical units (the objective before
normalization by `obj0`, i.e. `objective * obj0`) is `2`; the two differ,
so the history does not store physical units. -/
theorem history_physical_units_counterexample :
    (runLoop cfgW oracleW 1 0).1.compliance = [(1 : ℝ)] ∧
    (stateAt cfgW oracleW 1).objective * (stateAt cfgW oracleW 1).obj0 = 2 ∧
    (1 : ℝ) ≠ 2 := by
  have hrun : runLoop cfgW oracleW 1 0 =
      (stepBody cfgW oracleW 0 (initState cfgW), 1) := by
    show loopAux cfgW oracleW 0 1 0 (initState cfgW) = _
    rw [loopAux_succ, if_neg (by norm_num)]
    simp [loopAux]
  have hobj : (stepBody cfgW oracleW 0 (initState cfgW)).objective = 1 := by
    simp only [stepBody, initState, objectiveFormula, sumEJ, cfgW, oracleW]
    norm_num [Real.one_rpow]
  have hobj0 : (stepBody cfgW oracleW 0 (initState cfgW)).obj0 = 2 := by
    simp only [stepBody, initState, sumEJ, cfgW, oracleW]
    norm_num [Real.one_rpow]
  refine ⟨?_, ?_, by norm_num⟩
  · rw [hrun]
    show (stepBody cfgW oracleW 0 (initState cfgW)).compliance = [1]
    rw [(stepBody_hist cfgW oracleW 0 (initState cfgW)).1, hobj]
    rfl
  · show (stepBody cfgW oracleW 0 (initState cfgW)).objective *
      (stepBody cfgW oracleW 0 (initState cfgW)).obj0 = 2
    rw [hobj, hobj0]
    norm_num

/-- Claim C4 counterexample: with initial `FE.penal = 9` the very next
iteration lowers `penal` to `min(8, 9.02) = 8`, so `penal` is not
non-decreasing (and its initial value already exceeds the cap 8.0); and
with `desiredVolumeFraction = 1/10000` the initial `alpha = 0.05` already
exceeds `100 * desiredVolumeFraction = 0.01`.  The claim therefore fails
for some initial `penal` values and some volume fractions in (0,1). -/
theorem penal_alpha_monotone_counterexample :
    (stateAt cfgP9 oracleW 1).penal < (stateAt cfgP9 oracleW 0).penal ∧
    (8 : ℚ) < (stateAt cfgP9 oracleW 0).penal ∧
    100 * cfgVtiny.desiredVolumeFraction < (stateAt cfgVtiny oracleW 0).alpha
    := by
  refine ⟨?_, ?_, ?_⟩
  · show min 8 ((initState cfgP9).penal + 1/50) < (initState cfgP9).penal
    simp only [initState, cfgP9]
    rw [min_eq_left (by norm_num)]
    norm_num
  · show (8 : ℚ) < (initState cfgP9).penal
    simp only [initState, cfgP9]
    norm_num
  · show 100 * cfgVtiny.desiredVolumeFraction < (initState cfgVtiny).alpha
    simp only [initState, cfgVtiny]
    norm_num

/-- Claim C4 amended: provided the solver's initial `penal` does not exceed
the cap 8.0 and `desiredVolumeFraction ≥ 1/2000` (so that the initial
`alpha = 0.05` does not already exceed `100 * desiredVolumeFraction`),
`FE.penal` is non-decreasing across iterations and never exceeds 8.0, and
`alpha` is non-decreasing and never exceeds
`100 * desiredVolumeFraction`. -/
theorem penal_alpha_monotone (cfg : Config) (oracle : Oracle)
    (hp : cfg.penal0 ≤ 8) (hv : 1/2000 ≤ cfg.desiredVolumeFraction)
    (k : ℕ) :
    ((stateAt cfg oracle k).penal ≤ (stateAt cfg oracle (k + 1)).penal ∧
      (stateAt cfg oracle k).penal ≤ 8) ∧
    ((stateAt cfg oracle k).alpha ≤ (stateAt cfg oracle (k + 1)).alpha ∧
      (stateAt cfg oracle k).alpha ≤ 100 * cfg.desiredVolumeFraction) := by
  have hstep : ∀ j : ℕ,
      (stateAt cfg oracle (j + 1)).penal =
        min 8 ((stateAt cfg oracle j).penal + 1/50) ∧
      (stateAt cfg oracle (j + 1)).alpha =
        min (100 * cfg.desiredVolumeFraction)
          ((stateAt cfg oracle j).alpha + 1/20) :=
    fun j => ⟨rfl, rfl⟩
  have hbound : ∀ j : ℕ, (stateAt cfg oracle j).penal ≤ 8 ∧
      (stateAt cfg oracle j).alpha ≤ 100 * cfg.desiredVolumeFraction := by
    intro j
    cases j with
    | zero => exact ⟨hp, by
        show (1 : ℚ)/20 ≤ 100 * cfg.desiredVolumeFraction
        linarith⟩
    | succ n =>
      rw [(hstep n).1, (hstep n).2]
      exact ⟨min_le_left _ _, min_le_left _ _⟩
  refine ⟨⟨?_, (hbound k).1⟩, ⟨?_, (hbound k).2⟩⟩
  · rw [(hstep k).1]
    exact le_min (hbound k).1 (by linarith)
  · rw [(hstep k).2]
    exact le_min (hbound k).2 (by linarith)

/-- Witness for the amended C4 at the concrete configuration `cfgW` and
iteration `0`. -/
theorem penal_alpha_monotone_witness :
    (cfgW.penal0 ≤ 8 ∧ 1/2000 ≤ cfgW.desiredVolumeFraction) ∧
    (((stateAt cfgW oracleW 0).penal ≤ (stateAt cfgW oracleW 1).penal ∧
        (stateAt cfgW oracleW 0).penal ≤ 8) ∧
      ((stateAt cfgW oracleW 0).alpha ≤ (stateAt cfgW oracleW 1).alpha ∧
        (stateAt cfgW oracleW 0).alpha ≤
          100 * cfgW.desiredVolumeFraction)) :=
  ⟨⟨by norm_num [cfgW], by norm_num [cfgW]⟩,
    penal_alpha_monotone cfgW oracleW (by norm_num [cfgW])
      (by norm_num [cfgW]) 0⟩

/-- Every execution of the loop body leaves the loop-local variables
bound. -/
theorem lastVars_bound (cfg : Config) (oracle : Oracle) (j : ℕ) :
    ((stateAt cfg oracle (j + 1)).lastVars).isSome = true :=
  rfl

/-- Variable `titleStr` is bound after the first executed iteration: epoch 0
satisfies `epoch % 20 == 0`, and later iterations either refresh it or keep
it. -/
theorem titleStr_bound (cfg : Config) (oracle : Oracle) :
    ∀ j : ℕ, ((stateAt cfg oracle (j + 1)).titleStr).isSome = true := by
  intro j
  induction j with
  | zero => rfl
  | succ n ih =>
    show ((stepBody cfg oracle (n + 1)
      (stateAt cfg oracle (n + 1))).titleStr).isSome = true
    simp only [stepBody]
    by_cases h : (n + 1) % 20 = 0
    · rw [if_pos h]
      rfl
    · rw [if_neg h]
      exact ih

/-- With at least one epoch of fuel the loop executes at least one
iteration. -/
theorem loopAux_count_pos (cfg : Config) (oracle : Oracle)
    (minE fuel epoch : ℕ) (s : LoopState) (hf : 1 ≤ fuel) :
    1 ≤ (loopAux cfg oracle minE fuel epoch s).2 := by
  obtain ⟨n, rfl⟩ : ∃ n, fuel = n + 1 := ⟨fuel - 1, by omega⟩
  rw [loopAux_succ]
  by_cases h : minE < epoch ∧ relGreyAt cfg oracle epoch < 1/40
  · rw [if_pos h]
  · rw [if_neg h]
    exact Nat.le_add_left 1 _

/-- Claim C10: with `maxEpochs = 0` the loop body never runs, the
post-loop code of `optimizeDesign` reads loop-local variables that were
never assigned, and the call fails instead of returning an empty history;
with `maxEpochs ≥ 1` the run returns a history. -/
theorem optimizeDesign_requires_one_epoch (cfg : Config) (oracle : Oracle)
    (minE : ℕ) :
    optimizeDesign cfg oracle 0 minE = none ∧
    ∀ maxE : ℕ, 1 ≤ maxE →
      (optimizeDesign cfg oracle maxE minE).isSome = true := by
  constructor
  · rfl
  · intro maxE hmax
    have hc : 1 ≤ (runLoop cfg oracle maxE minE).2 :=
      loopAux_count_pos cfg oracle minE maxE 0 (initState cfg) hmax
    obtain ⟨j, hj⟩ : ∃ j, (runLoop cfg oracle maxE minE).2 = j + 1 :=
      ⟨(runLoop cfg oracle maxE minE).2 - 1, by omega⟩
    have hstate : (runLoop cfg oracle maxE minE).1 =
        stateAt cfg oracle (j + 1) := by
      rw [runLoop_state cfg oracle maxE minE, hj]
    obtain ⟨v, hv⟩ := Option.isSome_iff_exists.mp
      (hstate ▸ lastVars_bound cfg oracle j :
        ((runLoop cfg oracle maxE minE).1.lastVars).isSome = true)
    obtain ⟨t, ht⟩ := Option.isSome_iff_exists.mp
      (hstate ▸ titleStr_bound cfg oracle j :
        ((runLoop cfg oracle maxE minE).1.titleStr).isSome = true)
    unfold optimizeDesign
    rw [hv, ht]
    rfl

/-- Witness for C10 at the concrete configuration `cfgW`, `maxEpochs = 1`,
`minEpochs = 0`. -/
theorem optimizeDesign_requires_one_epoch_witness :
    optimizeDesign cfgW oracleW 0 0 = none ∧
    (1 ≤ 1 ∧ (optimizeDesign cfgW oracleW 1 0).isSome = true) :=
  ⟨(optimizeDesign_requires_one_epoch cfgW oracleW 0).1,
    le_refl 1,
    (optimizeDesign_requires_one_epoch cfgW oracleW 0).2 1 (le_refl 1)⟩

end TOuNN
